import Mathlib

/-
Verification of the nookipedia-api client library (maxswa/nookipedia-api).

The development shallowly embeds `src/index.ts` at package version 1.6.0
(the file whose `NOOKIPEDIA_API_VERSION` constant matches the version field
of `package.json`; the repository checkout also carries two older snapshots
of the same file, which lack the 400 case of the status switch but agree
with the current file everywhere else that matters here).

The embedding covers:
  * the error class hierarchy `NookipediaError`, `NookipediaError400/401/404/500`
    as a sum type, with the class-field semantics of `code` (the subtype field
    initializer runs after `super`, so a subtype's `code` is always its fixed
    constant irrespective of the constructed body);
  * the `request` method: path-placeholder substitution via JavaScript
    `String.prototype.replace` (including its `$`-substitution semantics for
    the replacement string), URL resolution of a path-absolute reference
    against the configured base URL, query-parameter encoding with
    `URLSearchParams.append`/`set` semantics, header composition with
    `Headers` semantics (names normalized to lower case, `set` overwriting),
    and classification of the transport outcome by `ok` flag and status code.

External collaborators (fetch, URL, URLSearchParams, Headers) are modelled at
the fidelity the library exercises: references produced by the library are
path-absolute (every path template begins with '/'), so only that branch of
URL resolution is represented; percent-escaping of parsed query strings is
not re-applied (the serialization function below does escape, and both sides
of every comparison go through the same pipeline).  JSON bodies are modelled
as a concrete syntax tree and are passed through untouched, exactly as the
code does.
-/

set_option maxHeartbeats 1000000

namespace Nookipedia

/-- Left brace character, written via its code point so that brace handling in
path templates stays explicit. -/
def lbrace : Char := Char.ofNat 123

/-- Right brace character. -/
def rbrace : Char := Char.ofNat 125

/-- Dollar character, the escape introducer of JavaScript replacement strings. -/
def dollarCh : Char := Char.ofNat 36

/-- Backquote character (the `$` + backquote replacement pattern inserts the
portion of the string before the match). -/
def backquoteCh : Char := Char.ofNat 96

/-- Apostrophe character (the `$` + apostrophe replacement pattern inserts the
portion of the string after the match). -/
def aposCh : Char := Char.ofNat 39

/-- Ampersand character (`$&` inserts the matched substring). -/
def ampCh : Char := Char.ofNat 38

/-- Parsed JSON values, the result of `fetchResponse.json()`.  The request
engine never inspects these; they flow through unmodified. -/
inductive Json where
  | null : Json
  | bool (b : Bool) : Json
  | num (n : Int) : Json
  | str (s : String) : Json
  | arr (items : List Json) : Json
  | obj (fields : List (String × Json)) : Json
deriving Repr

/-- Version constant of `src/index.ts` line 3 (package version 1.6.0). -/
def NOOKIPEDIA_API_VERSION : String := "1.6.0"

/-- The error hierarchy of `src/index.ts` lines 37 to 65, as a sum type.
`generic` is the base class `NookipediaError` as constructed directly (body
plus optional numeric code); the four remaining constructors are the
subclasses `NookipediaError400/401/404/500`, each taking only the decoded
error body. -/
inductive NookipediaError where
  | generic (body : Json) (code : Option Nat) : NookipediaError
  | err400 (body : Json) : NookipediaError
  | err401 (body : Json) : NookipediaError
  | err404 (body : Json) : NookipediaError
  | err500 (body : Json) : NookipediaError
deriving Repr

/-- The `code` field of a constructed error.  In the TypeScript source each
subclass declares `public code = 4xx`; that field initializer runs after the
`super(body)` call, so a subtype instance's `code` is its fixed constant no
matter what it was constructed with, while the base class keeps whatever
optional code its constructor received. -/
def NookipediaError.code : NookipediaError → Option Nat
  | .generic _ c => c
  | .err400 _ => some 400
  | .err401 _ => some 401
  | .err404 _ => some 404
  | .err500 _ => some 500

/-- The `body` field of a constructed error: always exactly the constructor
argument (the parameter property `public body` stores it unmodified). -/
def NookipediaError.body : NookipediaError → Json
  | .generic b _ => b
  | .err400 b => b
  | .err401 b => b
  | .err404 b => b
  | .err500 b => b

/-- The fallback body built in the `default` branch of the status switch
(line 140 of the source): `{ title: 'Failed to fetch Nookipedia API' }`. -/
def fallbackBody : Json := Json.obj [("title", Json.str "Failed to fetch Nookipedia API")]

/-- What the transport hands back for one request: the `ok` flag, the numeric
status (absent when the transport produced none), and the result of awaiting
`json()` — either a decoded value or a raised decoding exception. -/
structure FetchResponse where
  ok : Bool
  status : Option Nat
  json : Except String Json

/-- How one `request` call settles: resolve with the parsed body, reject with
a constructed `NookipediaError`, or reject with a raw JavaScript exception
propagated from a collaborator (JSON decoding, URL construction). -/
inductive RequestOutcome where
  | success (body : Json) : RequestOutcome
  | nookipediaError (e : NookipediaError) : RequestOutcome
  | jsException (msg : String) : RequestOutcome
deriving Repr

/-- Lines 125 to 143 of `request`: first await `fetchResponse.json()` (a
decoding failure therefore rejects the call before `ok` or `status` is ever
read), then return the body on `ok`, otherwise switch on the status code. -/
def classifyResponse (res : FetchResponse) : RequestOutcome :=
  match res.json with
  | .error e => .jsException e
  | .ok body =>
    if res.ok then .success body
    else
      match res.status with
      | some 400 => .nookipediaError (.err400 body)
      | some 401 => .nookipediaError (.err401 body)
      | some 404 => .nookipediaError (.err404 body)
      | some 500 => .nookipediaError (.err500 body)
      | s => .nookipediaError (.generic fallbackBody s)

/-- Locate the first occurrence of `pat` in a character list.  On success it
returns the split `(before, after)` with the searched list equal to
`before ++ pat ++ after` and no occurrence of `pat` starting earlier.  This is
the search step of JavaScript `String.prototype.replace` with a string
pattern (which replaces only the first occurrence; an empty pattern matches
at position 0). -/
def findSplit (pat : List Char) : List Char → Option (List Char × List Char)
  | [] => if pat = [] then some ([], []) else none
  | c :: cs =>
    if pat.isPrefixOf (c :: cs) then some ([], (c :: cs).drop pat.length)
    else (findSplit pat cs).map (fun r => (c :: r.1, r.2))

/-- GetSubstitution of ECMA-262 for a string (non-regexp) pattern: in the
replacement string, `$$` stands for a dollar sign, `$&` for the matched
substring, a dollar followed by a backquote for the portion before the match,
a dollar followed by an apostrophe for the portion after the match; any other
dollar (including `$1`..`$9`, which refer to capture groups that a string
pattern does not have) is copied literally. -/
def getSubstitution (matched before after : List Char) : List Char → List Char
  | [] => []
  | c :: rest =>
    if c = dollarCh then
      match rest with
      | [] => [c]
      | d :: rest2 =>
        if d = dollarCh then dollarCh :: getSubstitution matched before after rest2
        else if d = ampCh then matched ++ getSubstitution matched before after rest2
        else if d = backquoteCh then before ++ getSubstitution matched before after rest2
        else if d = aposCh then after ++ getSubstitution matched before after rest2
        else c :: d :: getSubstitution matched before after rest2
    else c :: getSubstitution matched before after rest

/-- JavaScript `s.replace(pat, repl)` with string pattern and string
replacement: substitute the first occurrence of `pat`, processing the
replacement string through `getSubstitution`; if `pat` does not occur, the
string is unchanged. -/
def jsReplaceFirst (s pat repl : List Char) : List Char :=
  match findSplit pat s with
  | none => s
  | some (b, a) => b ++ getSubstitution pat b a repl ++ a

/-- The placeholder pattern `` `{${key}}` `` built on line 98 of the source. -/
def phPat (n : List Char) : List Char := lbrace :: (n ++ [rbrace])

/-- Lines 95 to 100 of `request`: fold the entries of `replacePath` (in
`Object.entries` order) over the template, each one replacing the first
occurrence of its `{name}` pattern. -/
def resolvePathL (template : List Char) (mapping : List (List Char × List Char)) : List Char :=
  mapping.foldl (fun acc kv => jsReplaceFirst acc (phPat kv.1) kv.2) template

/-- String-level wrapper of `resolvePathL`. -/
def resolvePath (template : String) (mapping : List (String × String)) : String :=
  String.mk (resolvePathL template.data (mapping.map (fun kv => (kv.1.data, kv.2.data))))

/-- Shared `set` semantics of `URLSearchParams.set` and `Headers.set` over an
ordered entry list: if the name is present, the first matching entry keeps its
position and receives the new value and every later entry under the same name
is removed; otherwise the pair is appended at the end. -/
def setEntries (hs : List (String × String)) (n v : String) : List (String × String) :=
  match hs with
  | [] => [(n, v)]
  | (k, w) :: t =>
    if k = n then (n, v) :: t.filter (fun e => e.1 ≠ n)
    else (k, w) :: setEntries t n v

/-- A query value as typed on lines 104 to 107 of the source:
`string | number | string[] | number[]`.  JavaScript numbers in the query
schemas of this API are integers (e.g. `thumbsize`), modelled as `Int`. -/
inductive QueryValue where
  | str (s : String) : QueryValue
  | num (n : Int) : QueryValue
  | strList (xs : List String) : QueryValue
  | numList (xs : List Int) : QueryValue

/-- One iteration of the query loop (lines 108 to 116): an array appends one
entry per element via `searchParams.append`, preserving order; a scalar is
`toString`ed and stored via `searchParams.set`. -/
def applyQueryEntry (ps : List (String × String)) (k : String) : QueryValue → List (String × String)
  | .strList xs => ps ++ xs.map (fun x => (k, x))
  | .numList xs => ps ++ xs.map (fun x => (k, toString x))
  | .str s => setEntries ps k s
  | .num n => setEntries ps k (toString n)

/-- The whole query loop: fold the entries of the caller's query object (in
`Object.entries` order) over the URL's current search-parameter list. -/
def processQuery (qs : List (String × QueryValue)) (ps : List (String × String)) :
    List (String × String) :=
  qs.foldl (fun acc kv => applyQueryEntry acc kv.1 kv.2) ps

/-- Hexadecimal digit (upper case), for percent-escapes. -/
def hexDigit (n : Nat) : Char :=
  if n < 10 then Char.ofNat (48 + n) else Char.ofNat (55 + n)

/-- UTF-8 bytes of one character, for percent-escaping. -/
def utf8Bytes (c : Char) : List Nat :=
  let n := c.toNat
  if n < 128 then [n]
  else if n < 2048 then [192 + n / 64, 128 + n % 64]
  else if n < 65536 then [224 + n / 4096, 128 + n / 64 % 64, 128 + n % 64]
  else [240 + n / 262144, 128 + n / 4096 % 64, 128 + n / 64 % 64, 128 + n % 64]

/-- application/x-www-form-urlencoded escaping of one character, as used by
the `URLSearchParams` serializer: alphanumerics and `*-._` are kept, a space
becomes `+`, everything else is percent-escaped byte by byte. -/
def formEncodeChar (c : Char) : List Char :=
  if c.isAlphanum ∨ c = Char.ofNat 42 ∨ c = Char.ofNat 45 ∨ c = Char.ofNat 46 ∨ c = Char.ofNat 95 then [c]
  else if c = Char.ofNat 32 then [Char.ofNat 43]
  else (utf8Bytes c).flatMap (fun b => [Char.ofNat 37, hexDigit (b / 16), hexDigit (b % 16)])

/-- Form-urlencode a whole string. -/
def formEncode (s : String) : String := String.mk (s.data.flatMap formEncodeChar)

/-- `URLSearchParams` serialization: `name=value` pairs joined with `&`. -/
def encodeParams (ps : List (String × String)) : String :=
  String.intercalate "&" (ps.map (fun kv => formEncode kv.1 ++ "=" ++ formEncode kv.2))

/-- Header names are byte-case-insensitive; the `Headers` object normalizes
them, modelled as lower-casing on storage and lookup. -/
def headerName (s : String) : String := String.mk (s.data.map Char.toLower)

/-- `new Headers(init)` with a list of pairs fills the header list by
appending each pair in order, names normalized. -/
def headersOfInit (init : List (String × String)) : List (String × String) :=
  init.map (fun e => (headerName e.1, e.2))

/-- `Headers.get`: `none` when no entry matches, otherwise the matching
values joined with a comma and a space. -/
def getHeader (hs : List (String × String)) (name : String) : Option String :=
  match hs.filter (fun e => e.1 = headerName name) with
  | [] => none
  | l => some (String.intercalate ", " (l.map Prod.snd))

/-- Lines 118 to 120 of `request`: start from the caller's headers, then
force-set the two mandatory headers, the caller's values for those two names
being overwritten. -/
def composeHeaders (callerHeaders : List (String × String)) (apiKey : String) :
    List (String × String) :=
  setEntries (setEntries (headersOfInit callerHeaders) (headerName "Accept-Version")
    NOOKIPEDIA_API_VERSION) (headerName "X-API-KEY") apiKey

/-- Characters that terminate the authority component of a URL. -/
def isAuthorityEnd (c : Char) : Bool := c = Char.ofNat 47 ∨ c = Char.ofNat 63 ∨ c = Char.ofNat 35

/-- Scheme and authority of an absolute base URL.  Path, query and fragment
of the base are irrelevant to this library: every reference it resolves is
path-absolute (all path templates begin with `/`), and such a reference takes
only scheme and authority from the base. -/
structure BaseURL where
  scheme : List Char
  authority : List Char
deriving Repr, DecidableEq

/-- The `://` separator. -/
def schemeSep : List Char := [Char.ofNat 58, Char.ofNat 47, Char.ofNat 47]

/-- Parse the scheme and authority of an absolute URL string, the collaborator
behavior of `new URL(path, base)` on the base argument for the URL shapes this
library is used with (an alphabetic scheme followed by `://` and a non-empty
authority).  `none` models the `TypeError` the constructor throws on an
invalid base. -/
def parseBase (s : List Char) : Option BaseURL :=
  match findSplit schemeSep s with
  | none => none
  | some (sch, rest) =>
    if sch ≠ [] ∧ sch.all Char.isAlpha then
      let auth := rest.takeWhile (fun c => !isAuthorityEnd c)
      if auth = [] then none else some { scheme := sch, authority := auth }
    else none

/-- Split a reference into path, query string, and fragment (the parse of the
first URL constructor argument when it is path-absolute). -/
def splitRef (l : List Char) : List Char × List Char × Option (List Char) :=
  let path := l.takeWhile (fun c => !(c = Char.ofNat 63 ∨ c = Char.ofNat 35))
  let rest := l.dropWhile (fun c => !(c = Char.ofNat 63 ∨ c = Char.ofNat 35))
  match rest with
  | [] => (path, [], none)
  | c :: t =>
    if c = Char.ofNat 63 then
      (path, t.takeWhile (fun d => d ≠ Char.ofNat 35),
        match t.dropWhile (fun d => d ≠ Char.ofNat 35) with
        | [] => none
        | _ :: f => some f)
    else (path, [], some t)

/-- Split a character list on ampersands. -/
def splitOnAmp : List Char → List (List Char)
  | [] => [[]]
  | x :: xs =>
    if x = ampCh then [] :: splitOnAmp xs
    else
      match splitOnAmp xs with
      | [] => [[x]]
      | h :: t => (x :: h) :: t

/-- Split a raw query string into name/value pairs (`URLSearchParams`
parsing; empty pieces are skipped, a piece without `=` gets the empty
value).  Percent-decoding is not re-applied. -/
def parseQS (q : List Char) : List (String × String) :=
  (splitOnAmp q).filterMap (fun piece =>
    if piece = [] then none
    else some (String.mk (piece.takeWhile (fun c => c ≠ Char.ofNat 61)),
      match piece.dropWhile (fun c => c ≠ Char.ofNat 61) with
      | [] => ""
      | _ :: v => String.mk v))

/-- The two public fields of a `NookipediaApi` instance (constructor
parameter properties, lines 67 to 77): the credential and the base URL. -/
structure NookipediaApiState where
  apiKey : String
  apiUrl : String
deriving Repr, DecidableEq

/-- The data of one `request` invocation: the path template, the
`replacePath` mapping (in `Object.entries` order; empty when absent), the
optional query object, and the caller's headers from
`fetchOptions.headers` (empty when absent; the remaining `fetchOptions`
fields are passed through to the transport opaquely and play no role in the
engine). -/
structure RequestArgs where
  path : String
  replacePath : List (String × String) := []
  query : Option (List (String × QueryValue)) := none
  headers : List (String × String) := []

/-- What `request` hands to `fetch` (line 121): the serialized URL and the
composed headers. -/
structure OutboundRequest where
  href : String
  headers : List (String × String)
deriving Repr

/-- Serialize the final URL: scheme, `://`, authority, path, then the query
from the search-parameter list (absent when the list is empty, exactly as the
`URLSearchParams` update steps set the URL's query) and the fragment. -/
def serializeURL (base : BaseURL) (path : List Char) (params : List (String × String))
    (frag : Option (List Char)) : String :=
  String.mk (base.scheme ++ schemeSep ++ base.authority ++ path) ++
    (if params = [] then "" else "?" ++ encodeParams params) ++
    (match frag with
     | none => ""
     | some f => String.mk (Char.ofNat 35 :: f))

/-- Whether a reference is path-absolute: begins with `/` and not with `//`
(every path template of this library begins with `/nh/` or `/villagers`, so
this is the only reference shape the library produces; a `//` prefix would be
a network-path reference, which takes its authority from the reference and is
not modelled). -/
def pathAbsolute (l : List Char) : Bool :=
  match l with
  | c :: rest => c = Char.ofNat 47 ∧ rest.head? ≠ some (Char.ofNat 47)
  | [] => false

/-- Lines 94 to 120 of `request`: resolve the path template, construct the
URL against the base, run the query loop, compose the headers.  `none` models
the `TypeError` thrown by the URL constructor when the base is invalid (the
non-path-absolute reference shape, which the library never produces, is also
mapped to `none`). -/
def buildRequest (st : NookipediaApiState) (args : RequestArgs) : Option OutboundRequest :=
  let finalPath := resolvePath args.path args.replacePath
  match parseBase st.apiUrl.data with
  | none => none
  | some base =>
    if pathAbsolute finalPath.data then
      let pqf := splitRef finalPath.data
      let params0 := parseQS pqf.2.1
      let params :=
        match args.query with
        | none => params0
        | some qs => processQuery qs params0
      some { href := serializeURL base pqf.1 params pqf.2.2,
             headers := composeHeaders args.headers st.apiKey }
    else none

/-- The whole `request` method over an explicit transport (the global
`fetch`, swapped or mocked at will): build the outbound request, hand it to
the transport, classify the response.  The second component is the client
state after the call; the method only ever reads `this.apiKey` and
`this.apiUrl` (lines 101 and 118 to 120) and contains no assignment to
either, so the state passes through unchanged. -/
def NookipediaApi.request (st : NookipediaApiState) (args : RequestArgs)
    (transport : OutboundRequest → FetchResponse) : RequestOutcome × NookipediaApiState :=
  match buildRequest st args with
  | none => (.jsException "TypeError: Invalid URL", st)
  | some req => (classifyResponse (transport req), st)

/-- A character list free of brace characters. -/
def braceFreeL (l : List Char) : Prop := lbrace ∉ l ∧ rbrace ∉ l

instance (l : List Char) : Decidable (braceFreeL l) := by
  unfold braceFreeL; infer_instance

/-- A character list free of the dollar character (so that a replacement
value is copied verbatim by `getSubstitution`). -/
def dollarFreeL (l : List Char) : Prop := dollarCh ∉ l

instance (l : List Char) : Decidable (dollarFreeL l) := by
  unfold dollarFreeL; infer_instance

/-- Abstract shape of a path template: literal chunks interleaved with
`\x7bname\x7d` placeholders.  This is the specification-side notion used to
state what "the placeholders present in the template" means; `renderPieces`
produces the concrete template string the code operates on. -/
inductive PathPiece where
  | lit (s : String) : PathPiece
  | ph (s : String) : PathPiece

/-- Concrete template text of a piece list. -/
def renderPieces : List PathPiece → List Char
  | [] => []
  | .lit s :: ps => s.data ++ renderPieces ps
  | .ph n :: ps => lbrace :: (n.data ++ rbrace :: renderPieces ps)

/-- Placeholder names of a template, in order of appearance. -/
def pieceNames : List PathPiece → List String
  | [] => []
  | .lit _ :: ps => pieceNames ps
  | .ph n :: ps => n :: pieceNames ps

/-- Well-formedness of one piece: its text (literal chunk or placeholder
name) contains no brace characters.  All templates of this library satisfy
this. -/
def pieceWF : PathPiece → Prop
  | .lit s => braceFreeL s.data
  | .ph n => braceFreeL n.data

instance (p : PathPiece) : Decidable (pieceWF p) := by
  cases p with
  | lit s => exact inferInstanceAs (Decidable (braceFreeL s.data))
  | ph n => exact inferInstanceAs (Decidable (braceFreeL n.data))

/-- Well-formedness of a template given as pieces. -/
def piecesWF (ps : List PathPiece) : Prop := ∀ p ∈ ps, pieceWF p

instance (ps : List PathPiece) : Decidable (piecesWF ps) :=
  inferInstanceAs (Decidable (∀ p ∈ ps, pieceWF p))

lemma request_eq_of_buildRequest {st : NookipediaApiState} {args : RequestArgs}
    {req : OutboundRequest} (tr : OutboundRequest → FetchResponse)
    (h : buildRequest st args = some req) :
    NookipediaApi.request st args tr = (classifyResponse (tr req), st) := by
  unfold NookipediaApi.request
  rw [h]

/-- C1: when the transport reports a non-ok response whose status is 400,
401, 404 or 500, the call rejects with the matching typed error, which
carries the decoded body unmodified and its fixed status code constant. -/
theorem request_rejects_with_typed_error_on_known_status
    (st : NookipediaApiState) (args : RequestArgs)
    (tr : OutboundRequest → FetchResponse) (req : OutboundRequest) (b : Json)
    (hreq : buildRequest st args = some req)
    (hok : (tr req).ok = false) (hjson : (tr req).json = Except.ok b) :
    ((tr req).status = some 400 →
      (NookipediaApi.request st args tr).1 = .nookipediaError (.err400 b) ∧
      (NookipediaError.err400 b).body = b ∧ (NookipediaError.err400 b).code = some 400) ∧
    ((tr req).status = some 401 →
      (NookipediaApi.request st args tr).1 = .nookipediaError (.err401 b) ∧
      (NookipediaError.err401 b).body = b ∧ (NookipediaError.err401 b).code = some 401) ∧
    ((tr req).status = some 404 →
      (NookipediaApi.request st args tr).1 = .nookipediaError (.err404 b) ∧
      (NookipediaError.err404 b).body = b ∧ (NookipediaError.err404 b).code = some 404) ∧
    ((tr req).status = some 500 →
      (NookipediaApi.request st args tr).1 = .nookipediaError (.err500 b) ∧
      (NookipediaError.err500 b).body = b ∧ (NookipediaError.err500 b).code = some 500) := by
  rw [request_eq_of_buildRequest tr hreq]
  refine ⟨fun hst => ?_, fun hst => ?_, fun hst => ?_, fun hst => ?_⟩ <;>
    exact ⟨by simp [classifyResponse, hjson, hok, hst], rfl, rfl⟩

/-- Closed instance of C1: a mocked transport answering 401 with body
`\x7btitle:'a'\x7d` makes the call reject with `NookipediaError401` carrying
exactly that body and code 401. -/
theorem request_rejects_with_typed_error_on_known_status_witness :
    (NookipediaApi.request ⟨"apiKey", "https://api.nookipedia.com/"⟩ { path := "/nh/bugs" }
      (fun _ => ⟨false, some 401, Except.ok (Json.obj [("title", Json.str "a")])⟩)).1 =
      .nookipediaError (.err401 (Json.obj [("title", Json.str "a")])) ∧
    (NookipediaError.err401 (Json.obj [("title", Json.str "a")])).body =
      Json.obj [("title", Json.str "a")] ∧
    (NookipediaError.err401 (Json.obj [("title", Json.str "a")])).code = some 401 :=
  (request_rejects_with_typed_error_on_known_status
    ⟨"apiKey", "https://api.nookipedia.com/"⟩ { path := "/nh/bugs" }
    (fun _ => ⟨false, some 401, Except.ok (Json.obj [("title", Json.str "a")])⟩)
    ⟨"https://api.nookipedia.com/nh/bugs",
      [("accept-version", "1.6.0"), ("x-api-key", "apiKey")]⟩
    (Json.obj [("title", Json.str "a")]) rfl rfl rfl).2.1 rfl

/-- C2: a non-ok response whose status is outside the classified set (absent
status included) rejects with the generic `NookipediaError`, whose body is
the fixed fallback title and whose code is whatever the transport reported. -/
theorem request_rejects_with_generic_error_on_unknown_status
    (st : NookipediaApiState) (args : RequestArgs)
    (tr : OutboundRequest → FetchResponse) (req : OutboundRequest) (b : Json)
    (hreq : buildRequest st args = some req)
    (hok : (tr req).ok = false) (hjson : (tr req).json = Except.ok b)
    (h400 : (tr req).status ≠ some 400) (h401 : (tr req).status ≠ some 401)
    (h404 : (tr req).status ≠ some 404) (h500 : (tr req).status ≠ some 500) :
    (NookipediaApi.request st args tr).1 =
      .nookipediaError (.generic fallbackBody (tr req).status) ∧
    (NookipediaError.generic fallbackBody (tr req).status).body = fallbackBody ∧
    (NookipediaError.generic fallbackBody (tr req).status).code = (tr req).status := by
  rw [request_eq_of_buildRequest tr hreq]
  refine ⟨?_, rfl, rfl⟩
  simp only [classifyResponse, hjson, hok, Bool.false_eq_true, if_false]

/-- Closed instance of C2: status 999 yields the generic error with the
fallback title and code 999. -/
theorem request_rejects_with_generic_error_on_unknown_status_witness :
    (NookipediaApi.request ⟨"apiKey", "https://api.nookipedia.com/"⟩ { path := "/nh/bugs" }
      (fun _ => ⟨false, some 999, Except.ok (Json.obj [])⟩)).1 =
      .nookipediaError (.generic fallbackBody (some 999)) ∧
    (NookipediaError.generic fallbackBody (some 999)).body = fallbackBody ∧
    (NookipediaError.generic fallbackBody (some 999)).code = some 999 :=
  request_rejects_with_generic_error_on_unknown_status
    ⟨"apiKey", "https://api.nookipedia.com/"⟩ { path := "/nh/bugs" }
    (fun _ => ⟨false, some 999, Except.ok (Json.obj [])⟩)
    ⟨"https://api.nookipedia.com/nh/bugs",
      [("accept-version", "1.6.0"), ("x-api-key", "apiKey")]⟩
    (Json.obj []) rfl rfl rfl (by decide) (by decide) (by decide) (by decide)

/-- C3: an ok response resolves with exactly the decoded body, unmodified,
and raises nothing. -/
theorem request_resolves_with_body_on_ok
    (st : NookipediaApiState) (args : RequestArgs)
    (tr : OutboundRequest → FetchResponse) (req : OutboundRequest) (b : Json)
    (hreq : buildRequest st args = some req)
    (hok : (tr req).ok = true) (hjson : (tr req).json = Except.ok b) :
    (NookipediaApi.request st args tr).1 = .success b := by
  rw [request_eq_of_buildRequest tr hreq]
  simp [classifyResponse, hjson, hok]

/-- Closed instance of C3: a mocked ok transport with body `\x7bfoo:1\x7d`
makes the call resolve to `\x7bfoo:1\x7d`. -/
theorem request_resolves_with_body_on_ok_witness :
    (NookipediaApi.request ⟨"apiKey", "https://api.nookipedia.com/"⟩ { path := "/nh/bugs" }
      (fun _ => ⟨true, none, Except.ok (Json.obj [("foo", Json.num 1)])⟩)).1 =
      .success (Json.obj [("foo", Json.num 1)]) :=
  request_resolves_with_body_on_ok
    ⟨"apiKey", "https://api.nookipedia.com/"⟩ { path := "/nh/bugs" }
    (fun _ => ⟨true, none, Except.ok (Json.obj [("foo", Json.num 1)])⟩)
    ⟨"https://api.nookipedia.com/nh/bugs",
      [("accept-version", "1.6.0"), ("x-api-key", "apiKey")]⟩
    (Json.obj [("foo", Json.num 1)]) rfl rfl rfl

/-- C10: the body is decoded before `ok` or `status` is inspected, so a
response whose body fails to decode rejects with the raw decoding
exception, whatever the status, and no `NookipediaError` is constructed. -/
theorem request_propagates_json_decode_failure
    (st : NookipediaApiState) (args : RequestArgs)
    (tr : OutboundRequest → FetchResponse) (req : OutboundRequest) (e : String)
    (hreq : buildRequest st args = some req)
    (hjson : (tr req).json = Except.error e) :
    (NookipediaApi.request st args tr).1 = .jsException e ∧
    ∀ er : NookipediaError, (NookipediaApi.request st args tr).1 ≠ .nookipediaError er := by
  rw [request_eq_of_buildRequest tr hreq]
  refine ⟨by simp [classifyResponse, hjson], fun er => by simp [classifyResponse, hjson]⟩

/-- Closed instance of C10: a 401 response whose body raises a syntax error
on decoding rejects with that error, not with `NookipediaError401`. -/
theorem request_propagates_json_decode_failure_witness :
    (NookipediaApi.request ⟨"apiKey", "https://api.nookipedia.com/"⟩ { path := "/nh/bugs" }
      (fun _ => ⟨false, some 401, Except.error "SyntaxError: Unexpected token"⟩)).1 =
      .jsException "SyntaxError: Unexpected token" ∧
    (NookipediaApi.request ⟨"apiKey", "https://api.nookipedia.com/"⟩ { path := "/nh/bugs" }
      (fun _ => ⟨false, some 401, Except.error "SyntaxError: Unexpected token"⟩)).1 ≠
      .nookipediaError (.err401 fallbackBody) :=
  ⟨(request_propagates_json_decode_failure
      ⟨"apiKey", "https://api.nookipedia.com/"⟩ { path := "/nh/bugs" }
      (fun _ => ⟨false, some 401, Except.error "SyntaxError: Unexpected token"⟩)
      ⟨"https://api.nookipedia.com/nh/bugs",
        [("accept-version", "1.6.0"), ("x-api-key", "apiKey")]⟩
      "SyntaxError: Unexpected token" rfl rfl).1,
   (request_propagates_json_decode_failure
      ⟨"apiKey", "https://api.nookipedia.com/"⟩ { path := "/nh/bugs" }
      (fun _ => ⟨false, some 401, Except.error "SyntaxError: Unexpected token"⟩)
      ⟨"https://api.nookipedia.com/nh/bugs",
        [("accept-version", "1.6.0"), ("x-api-key", "apiKey")]⟩
      "SyntaxError: Unexpected token" rfl rfl).2 (.err401 fallbackBody)⟩

/-- C8: a specific error subtype's `code` field equals its fixed constant no
matter what body it was constructed with; only the generic base error
carries an arbitrary, possibly absent, code. -/
theorem nookipedia_error_code_fixed :
    (∀ b : Json, (NookipediaError.err400 b).code = some 400) ∧
    (∀ b : Json, (NookipediaError.err401 b).code = some 401) ∧
    (∀ b : Json, (NookipediaError.err404 b).code = some 404) ∧
    (∀ b : Json, (NookipediaError.err500 b).code = some 500) ∧
    (∀ (b : Json) (c : Option Nat), (NookipediaError.generic b c).code = c) :=
  ⟨fun _ => rfl, fun _ => rfl, fun _ => rfl, fun _ => rfl, fun _ _ => rfl⟩

lemma buildRequest_headers {st : NookipediaApiState} {args : RequestArgs}
    {req : OutboundRequest} (h : buildRequest st args = some req) :
    req.headers = composeHeaders args.headers st.apiKey := by
  unfold buildRequest at h
  rcases hpb : parseBase st.apiUrl.data with _ | base <;> rw [hpb] at h
  · exact absurd h (by simp)
  · by_cases hpa : pathAbsolute (resolvePath args.path args.replacePath).data = true
    · simp only [hpa, if_true, Option.some.injEq] at h
      rw [← h]
    · simp [hpa] at h

lemma filter_of_filter_ne (n : String) (t : List (String × String)) :
    (t.filter (fun e => e.1 ≠ n)).filter (fun e => e.1 = n) = [] := by
  induction t with
  | nil => rfl
  | cons a t ih =>
    by_cases h : a.1 = n
    · simp [List.filter_cons, h, ih]
    · simp [List.filter_cons, h, ih]

lemma filter_of_filter_other (n m : String) (hne : m ≠ n) (t : List (String × String)) :
    (t.filter (fun e => e.1 ≠ n)).filter (fun e => e.1 = m) =
      t.filter (fun e => e.1 = m) := by
  rw [List.filter_filter]
  apply List.filter_congr
  intro a _
  by_cases h2 : a.1 = m
  · have h1 : a.1 ≠ n := fun h => hne (h2 ▸ h)
    simp [h2, h1, hne]
  · simp [h2]

lemma setEntries_filter_self (hs : List (String × String)) (n v : String) :
    (setEntries hs n v).filter (fun e => e.1 = n) = [(n, v)] := by
  induction hs with
  | nil => simp [setEntries]
  | cons head t ih =>
    rcases head with ⟨k, w⟩
    by_cases hk : k = n
    · simp [setEntries, hk, List.filter_cons, filter_of_filter_ne]
    · simp [setEntries, hk, List.filter_cons, ih]

lemma setEntries_filter_ne (hs : List (String × String)) (n v m : String) (hne : m ≠ n) :
    (setEntries hs n v).filter (fun e => e.1 = m) = hs.filter (fun e => e.1 = m) := by
  induction hs with
  | nil =>
    have h1 : ¬n = m := fun h => hne h.symm
    simp [setEntries, List.filter_cons, h1]
  | cons head t ih =>
    rcases head with ⟨k, w⟩
    by_cases hk : k = n
    · have h1 : ¬n = m := fun h => hne h.symm
      have h2 : ¬k = m := fun h => hne (h.symm.trans hk)
      have hset : setEntries ((k, w) :: t) n v = (n, v) :: t.filter (fun e => e.1 ≠ n) := by
        simp [setEntries, hk]
      rw [hset, List.filter_cons, List.filter_cons]
      simp only [decide_eq_false h1, decide_eq_false h2, Bool.false_eq_true, if_false]
      exact filter_of_filter_other n m hne t
    · simp [setEntries, hk, List.filter_cons, ih]

lemma setEntries_mem_preserve (hs : List (String × String)) (n v m w : String) (hne : m ≠ n)
    (hmem : (m, w) ∈ hs) : (m, w) ∈ setEntries hs n v := by
  induction hs with
  | nil => cases hmem
  | cons head t ih =>
    rcases head with ⟨k, u⟩
    by_cases hk : k = n
    · simp only [setEntries, if_pos hk]
      rcases List.mem_cons.mp hmem with heq | hmemt
      · exact absurd (hk ▸ congrArg Prod.fst heq : m = n) hne
      · exact List.mem_cons_of_mem _ (List.mem_filter.mpr ⟨hmemt, by simp [hne]⟩)
    · simp only [setEntries, if_neg hk]
      rcases List.mem_cons.mp hmem with heq | hmemt
      · exact heq ▸ List.mem_cons_self _ _
      · exact List.mem_cons_of_mem _ (ih hmemt)

lemma getHeader_composeHeaders_apiKey (hs : List (String × String)) (k : String) :
    getHeader (composeHeaders hs k) "X-API-KEY" = some k := by
  unfold getHeader composeHeaders
  rw [show headerName "X-API-KEY" = "x-api-key" from rfl]
  rw [setEntries_filter_self]
  rfl

lemma getHeader_composeHeaders_version (hs : List (String × String)) (k : String) :
    getHeader (composeHeaders hs k) "Accept-Version" = some NOOKIPEDIA_API_VERSION := by
  unfold getHeader composeHeaders
  rw [show headerName "Accept-Version" = "accept-version" from rfl,
    show headerName "X-API-KEY" = "x-api-key" from rfl]
  rw [setEntries_filter_ne _ _ _ _ (by decide), setEntries_filter_self]
  rfl

/-- C9: no execution of `request` mutates the client's `apiKey` or `apiUrl`
fields — the configuration after any call equals the configuration before —
and the key is read fresh from the field at request time: whatever the
current `apiKey` field holds when a call is made is what goes out in its
key header, so a reassignment between calls takes effect on the next call. -/
theorem request_reads_config_without_mutating :
    (∀ (st : NookipediaApiState) (args : RequestArgs)
      (tr : OutboundRequest → FetchResponse), (NookipediaApi.request st args tr).2 = st) ∧
    (∀ (st : NookipediaApiState) (k : String) (args : RequestArgs) (req : OutboundRequest),
      buildRequest { st with apiKey := k } args = some req →
      getHeader req.headers "X-API-KEY" = some k) := by
  constructor
  · intro st args tr
    unfold NookipediaApi.request
    rcases h : buildRequest st args with _ | req <;> simp
  · intro st k args req h
    rw [buildRequest_headers h]
    exact getHeader_composeHeaders_apiKey _ _

/-- Closed instance of C9: a call leaves the configuration untouched, and a
client whose key field was reassigned to `"fresh"` sends `"fresh"` on the
next call. -/
theorem request_reads_config_without_mutating_witness :
    (NookipediaApi.request ⟨"apiKey", "https://api.nookipedia.com/"⟩ { path := "/nh/bugs" }
      (fun _ => ⟨true, none, Except.ok Json.null⟩)).2 =
      ⟨"apiKey", "https://api.nookipedia.com/"⟩ ∧
    getHeader [("accept-version", "1.6.0"), ("x-api-key", "fresh")] "X-API-KEY" =
      some "fresh" :=
  ⟨request_reads_config_without_mutating.1 ⟨"apiKey", "https://api.nookipedia.com/"⟩
      { path := "/nh/bugs" } (fun _ => ⟨true, none, Except.ok Json.null⟩),
   request_reads_config_without_mutating.2 ⟨"stale", "https://api.nookipedia.com/"⟩ "fresh"
      { path := "/nh/bugs" }
      ⟨"https://api.nookipedia.com/nh/bugs",
        [("accept-version", "1.6.0"), ("x-api-key", "fresh")]⟩ rfl⟩

/-- C4: every outbound request carries `Accept-Version` equal to the fixed
version constant and `X-API-KEY` equal to the client's current key field,
caller-supplied values under those two names being overwritten, while every
caller-supplied header under any other name is present with its value
unchanged. -/
theorem request_header_contract
    (st : NookipediaApiState) (args : RequestArgs) (req : OutboundRequest)
    (hreq : buildRequest st args = some req) :
    getHeader req.headers "Accept-Version" = some NOOKIPEDIA_API_VERSION ∧
    getHeader req.headers "X-API-KEY" = some st.apiKey ∧
    ∀ n v, (n, v) ∈ args.headers → headerName n ≠ headerName "Accept-Version" →
      headerName n ≠ headerName "X-API-KEY" → (headerName n, v) ∈ req.headers := by
  rw [buildRequest_headers hreq]
  refine ⟨getHeader_composeHeaders_version _ _, getHeader_composeHeaders_apiKey _ _, ?_⟩
  intro n v hmem hv hk
  unfold composeHeaders
  exact setEntries_mem_preserve _ _ _ _ _ hk
    (setEntries_mem_preserve _ _ _ _ _ hv
      (List.mem_map.mpr ⟨(n, v), hmem, rfl⟩))

/-- Closed instance of C4: with a caller-supplied colliding `X-API-KEY`
header and an unrelated `Test` header, the outgoing headers carry the
mandatory values and the `Test` header unharmed. -/
theorem request_header_contract_witness :
    getHeader [("x-api-key", "apiKey"), ("test", "testValue"), ("accept-version", "1.6.0")]
      "Accept-Version" = some NOOKIPEDIA_API_VERSION ∧
    getHeader [("x-api-key", "apiKey"), ("test", "testValue"), ("accept-version", "1.6.0")]
      "X-API-KEY" = some "apiKey" ∧
    (headerName "Test", "testValue") ∈
      ([("x-api-key", "apiKey"), ("test", "testValue"), ("accept-version", "1.6.0")] :
        List (String × String)) :=
  have h := request_header_contract ⟨"apiKey", "https://api.nookipedia.com/"⟩
    { path := "/nh/bugs", headers := [("X-API-KEY", "evil"), ("Test", "testValue")] }
    ⟨"https://api.nookipedia.com/nh/bugs",
      [("x-api-key", "apiKey"), ("test", "testValue"), ("accept-version", "1.6.0")]⟩ rfl
  ⟨h.1, h.2.1, h.2.2 "Test" "testValue" (by decide) (by decide) (by decide)⟩

/-- C5: a list-valued query entry appends one search parameter per element,
in list order, all under its name; a scalar entry sets a single parameter
under its name, overwriting any prior value (exactly one entry under that
name remains, holding the new value); scalars are `toString`ed before
encoding; and a list `[a, b]` under key `k` therefore serializes as
`k=a&k=b`. -/
theorem query_encoding_contract :
    (∀ (ps : List (String × String)) (k : String) (xs : List String),
      applyQueryEntry ps k (.strList xs) = ps ++ xs.map (fun x => (k, x))) ∧
    (∀ (ps : List (String × String)) (k : String) (xs : List Int),
      applyQueryEntry ps k (.numList xs) = ps ++ xs.map (fun x => (k, toString x))) ∧
    (∀ (ps : List (String × String)) (k s : String),
      (applyQueryEntry ps k (.str s)).filter (fun e => e.1 = k) = [(k, s)]) ∧
    (∀ (ps : List (String × String)) (k : String) (n : Int),
      (applyQueryEntry ps k (.num n)).filter (fun e => e.1 = k) = [(k, toString n)]) ∧
    (∀ k a b : String,
      processQuery [(k, .strList [a, b])] [] = [(k, a), (k, b)] ∧
      encodeParams [(k, a), (k, b)] =
        formEncode k ++ "=" ++ formEncode a ++ "&" ++ formEncode k ++ "=" ++ formEncode b) := by
  refine ⟨fun ps k xs => rfl, fun ps k xs => rfl,
    fun ps k s => setEntries_filter_self ps k s,
    fun ps k n => setEntries_filter_self ps k (toString n),
    fun k a b => ⟨rfl, ?_⟩⟩
  simp [encodeParams, String.intercalate, String.intercalate.go, String.append_assoc]

lemma findSplit_shape (pat : List Char) :
    ∀ (s a b : List Char), findSplit pat s = some (a, b) → s = a ++ pat ++ b := by
  intro s
  induction s with
  | nil =>
    intro a b h
    unfold findSplit at h
    by_cases hp : pat = []
    · rw [if_pos hp] at h
      rcases Option.some.injEq _ _ ▸ h with h2
      cases h2
      simp [hp]
    · rw [if_neg hp] at h
      cases h
  | cons c cs ih =>
    intro a b h
    unfold findSplit at h
    by_cases hp : pat.isPrefixOf (c :: cs) = true
    · rw [if_pos hp] at h
      rcases List.prefix_iff_eq_append.mp (List.isPrefixOf_iff_prefix.mp hp) with hpre
      injection h with h2
      injection h2 with ha hb
      rw [← ha, ← hb]
      simp only [List.nil_append]
      exact hpre.symm
    · rw [if_neg hp] at h
      rcases Option.map_eq_some'.mp h with ⟨r, hr, hab⟩
      injection hab with ha hb
      rw [← ha, ← hb]
      simp [ih r.1 r.2 (by rw [hr])]

lemma isPrefixOf_append_left (pat : List Char) :
    ∀ (u t : List Char), pat.length ≤ u.length →
      pat.isPrefixOf (u ++ t) = pat.isPrefixOf u := by
  induction pat with
  | nil => intro u t _; simp [List.isPrefixOf]
  | cons p ps ih =>
    intro u t h
    cases u with
    | nil => simp at h
    | cons x xs =>
      simp only [List.cons_append, List.isPrefixOf, List.append_eq]
      rw [ih xs t (Nat.le_of_succ_le_succ h)]

lemma isPrefixOf_append_self (pat rest : List Char) : pat.isPrefixOf (pat ++ rest) = true := by
  induction pat with
  | nil => simp [List.isPrefixOf]
  | cons p ps ih => simp [List.isPrefixOf, ih]

lemma findSplit_append (pat : List Char) :
    ∀ (s t a b : List Char), findSplit pat s = some (a, b) →
      findSplit pat (s ++ t) = some (a, b ++ t) := by
  intro s
  induction s with
  | nil =>
    intro t a b h
    unfold findSplit at h
    by_cases hp : pat = []
    · rw [if_pos hp] at h
      injection h with h2
      injection h2 with ha hb
      subst hp
      rw [← ha, ← hb]
      cases t with
      | nil => rfl
      | cons c cs => simp [findSplit, List.isPrefixOf]
    · rw [if_neg hp] at h; cases h
  | cons c cs ih =>
    intro t a b h
    unfold findSplit at h
    by_cases hp : pat.isPrefixOf (c :: cs) = true
    · rw [if_pos hp] at h
      injection h with h2
      injection h2 with ha hb
      rcases List.prefix_iff_eq_append.mp (List.isPrefixOf_iff_prefix.mp hp) with hpre
      have hlen : pat.length ≤ (c :: cs).length := by
        have hl := congrArg List.length hpre
        rw [List.length_append] at hl
        omega
      show findSplit pat (c :: (cs ++ t)) = some (a, b ++ t)
      unfold findSplit
      have hp2 : pat.isPrefixOf (c :: (cs ++ t)) = true := by
        have : c :: (cs ++ t) = (c :: cs) ++ t := rfl
        rw [this, isPrefixOf_append_left pat (c :: cs) t hlen]
        exact hp
      rw [if_pos hp2, ← ha, ← hb]
      have hdrop : (c :: (cs ++ t)).drop pat.length = (c :: cs).drop pat.length ++ t := by
        have : c :: (cs ++ t) = (c :: cs) ++ t := rfl
        rw [this, List.drop_append_of_le_length hlen]
      rw [hdrop]
    · rw [if_neg hp] at h
      rcases Option.map_eq_some'.mp h with ⟨r, hr, hab⟩
      injection hab with ha hb
      have hshape := findSplit_shape pat cs r.1 r.2 (by rw [hr])
      have hlen : pat.length ≤ (c :: cs).length := by
        rw [List.length_cons, hshape]
        simp
        omega
      show findSplit pat (c :: (cs ++ t)) = some (a, b ++ t)
      unfold findSplit
      have hp2 : pat.isPrefixOf (c :: (cs ++ t)) = false := by
        have : c :: (cs ++ t) = (c :: cs) ++ t := rfl
        rw [this, isPrefixOf_append_left pat (c :: cs) t hlen]
        exact Bool.not_eq_true _ ▸ hp
      rw [if_neg (by rw [hp2]; exact Bool.false_ne_true)]
      rw [ih t r.1 r.2 hr]
      rw [← ha, ← hb]
      rfl

lemma takeWhile_eq_of_length {p : Char → Bool} {l : List Char}
    (h : (l.takeWhile p).length = l.length) : l.takeWhile p = l :=
  (List.takeWhile_prefix p).eq_of_length h

lemma parseBase_append_slash (s : List Char) (u : BaseURL) (h : parseBase s = some u) :
    parseBase (s ++ [Char.ofNat 47]) = some u := by
  unfold parseBase at h ⊢
  rcases hfs : findSplit schemeSep s with _ | r
  · rw [hfs] at h; cases h
  · rcases r with ⟨sch, rest⟩
    rw [hfs] at h
    rw [findSplit_append schemeSep s [Char.ofNat 47] sch rest hfs]
    dsimp only at h ⊢
    by_cases hsch : sch ≠ [] ∧ sch.all Char.isAlpha
    · rw [if_pos hsch] at h ⊢
      have hslashEnd : (fun c => !isAuthorityEnd c) (Char.ofNat 47) = false := by decide
      rw [List.takeWhile_append]
      by_cases hlen : (rest.takeWhile (fun c => !isAuthorityEnd c)).length = rest.length
      · rw [if_pos hlen]
        have hfull : rest.takeWhile (fun c => !isAuthorityEnd c) = rest :=
          takeWhile_eq_of_length hlen
        have hsl : ([Char.ofNat 47] : List Char).takeWhile (fun c => !isAuthorityEnd c) = [] := by
          decide
        rw [hsl, List.append_nil, ← hfull]
        exact h
      · rw [if_neg hlen]
        exact h
    · rw [if_neg hsch] at h; cases h

/-- C7: resolving any library path against a base URL and against the same
base URL with a trailing slash appended produces the same outbound request —
in particular byte-identical URLs — whenever the base URL is valid. -/
theorem base_url_trailing_slash_irrelevant
    (st : NookipediaApiState) (args : RequestArgs) (u : BaseURL)
    (h : parseBase st.apiUrl.data = some u) :
    buildRequest st args = buildRequest { st with apiUrl := st.apiUrl ++ "/" } args := by
  unfold buildRequest
  have hdata : (st.apiUrl ++ "/").data = st.apiUrl.data ++ [Char.ofNat 47] := by
    rw [String.data_append]
  simp only [hdata, parseBase_append_slash _ u h, h]

lemma getSubstitution_id (m b a : List Char) :
    ∀ repl, dollarCh ∉ repl → getSubstitution m b a repl = repl := by
  intro repl
  induction repl with
  | nil => intro _; rfl
  | cons c rest ih =>
    intro h
    have hc : ¬c = dollarCh := fun he => h (he ▸ List.mem_cons_self c rest)
    have hrest : dollarCh ∉ rest := fun hm => h (List.mem_cons_of_mem _ hm)
    unfold getSubstitution
    rw [if_neg hc, ih hrest]

lemma findSplit_self (pat suffix : List Char) (hne : pat ≠ []) :
    findSplit pat (pat ++ suffix) = some ([], suffix) := by
  cases pat with
  | nil => exact absurd rfl hne
  | cons p ps =>
    have hcons : (p :: ps) ++ suffix = p :: (ps ++ suffix) := rfl
    rw [hcons]
    unfold findSplit
    have hpre : (p :: ps).isPrefixOf (p :: (ps ++ suffix)) = true := by
      rw [← hcons]; exact isPrefixOf_append_self _ _
    rw [if_pos hpre]
    have hdrop : (p :: (ps ++ suffix)).drop (p :: ps).length = suffix := by
      rw [← hcons]; exact List.drop_left _ _
    rw [hdrop]

lemma findSplit_skip (p : Char) (ps t : List Char) :
    ∀ pre : List Char, p ∉ pre →
      findSplit (p :: ps) (pre ++ t) =
        (findSplit (p :: ps) t).map (fun r => (pre ++ r.1, r.2)) := by
  intro pre
  induction pre with
  | nil =>
    intro _
    cases h : findSplit (p :: ps) t <;> simp [h]
  | cons c cs ih =>
    intro hp
    have hpc : ¬p = c := fun h => hp (by rw [h]; exact List.mem_cons_self _ _)
    have hpcs : p ∉ cs := fun h => hp (List.mem_cons_of_mem _ h)
    have hstep : findSplit (p :: ps) (c :: (cs ++ t)) =
        (findSplit (p :: ps) (cs ++ t)).map (fun r => (c :: r.1, r.2)) := by
      conv_lhs => unfold findSplit
      split
      · rename_i hcond
        exact absurd hcond (by simp [List.isPrefixOf, hpc])
      · rfl
    show findSplit (p :: ps) (c :: (cs ++ t)) = _
    rw [hstep, ih hpcs]
    cases h : findSplit (p :: ps) t <;> simp [h]

lemma notPrefix_ph : ∀ (j k rest : List Char), j ≠ k → rbrace ∉ j → rbrace ∉ k →
    (k ++ [rbrace]).isPrefixOf (j ++ rbrace :: rest) = false := by
  intro j
  induction j with
  | nil =>
    intro k rest hne _ hk
    cases k with
    | nil => exact absurd rfl hne
    | cons c k' =>
      have hc : ¬c = rbrace := fun h => hk (h ▸ List.mem_cons_self _ _)
      simp [List.isPrefixOf, hc]
  | cons a j' ih =>
    intro k rest hne hj hk
    cases k with
    | nil =>
      have ha : ¬rbrace = a := fun h => hj (List.mem_cons.mpr (Or.inl h))
      simp [List.isPrefixOf, ha]
    | cons c k' =>
      by_cases hac : c = a
      · have hne' : j' ≠ k' := fun h => hne (by rw [hac, h])
        have hj' : rbrace ∉ j' := fun h => hj (List.mem_cons_of_mem _ h)
        have hk' : rbrace ∉ k' := fun h => hk (List.mem_cons_of_mem _ h)
        have := ih k' rest hne' hj' hk'
        simp [List.isPrefixOf, hac, this]
      · simp [List.isPrefixOf, hac]

lemma renderPieces_append : ∀ ps qs : List PathPiece,
    renderPieces (ps ++ qs) = renderPieces ps ++ renderPieces qs := by
  intro ps qs
  induction ps with
  | nil => rfl
  | cons p ps' ih => cases p <;> simp [renderPieces, ih, List.append_assoc]

lemma pieceNames_append : ∀ ps qs : List PathPiece,
    pieceNames (ps ++ qs) = pieceNames ps ++ pieceNames qs := by
  intro ps qs
  induction ps with
  | nil => rfl
  | cons p ps' ih => cases p <;> simp [pieceNames, ih]

lemma findSplit_skip2 {hd : Char} (pat pre t : List Char) (hhd : pat.head? = some hd)
    (hmem : hd ∉ pre) :
    findSplit pat (pre ++ t) = (findSplit pat t).map (fun r => (pre ++ r.1, r.2)) := by
  cases pat with
  | nil => cases hhd
  | cons p ps =>
    have hp : hd = p := by injection hhd with h; exact h.symm
    subst hp
    exact findSplit_skip hd ps t pre hmem

lemma findSplit_head_miss (pat : List Char) (c : Char) (t : List Char)
    (hmiss : pat.isPrefixOf (c :: t) = false) :
    findSplit pat (c :: t) = (findSplit pat t).map (fun r => (c :: r.1, r.2)) := by
  conv_lhs => unfold findSplit
  split
  · rename_i hcond
    rw [hmiss] at hcond
    exact absurd hcond Bool.false_ne_true
  · rfl

lemma findSplit_render (k : String) (suffix : List Char) :
    ∀ qs : List PathPiece, piecesWF qs → braceFreeL k.data → k ∉ pieceNames qs →
      findSplit (phPat k.data) (renderPieces qs ++ (phPat k.data ++ suffix)) =
        some (renderPieces qs, suffix) := by
  intro qs
  induction qs with
  | nil =>
    intro _ _ _
    simp only [renderPieces, List.nil_append]
    exact findSplit_self _ _ (by simp [phPat])
  | cons piece qs' ih =>
    intro hwf hk hnames
    have hwf' : piecesWF qs' := fun p hp => hwf p (List.mem_cons_of_mem _ hp)
    cases piece with
    | lit s =>
      have hs : braceFreeL s.data := hwf (.lit s) (List.mem_cons_self _ _)
      have hn' : k ∉ pieceNames qs' := hnames
      have hshape : renderPieces (PathPiece.lit s :: qs') ++ (phPat k.data ++ suffix) =
          s.data ++ (renderPieces qs' ++ (phPat k.data ++ suffix)) := by
        simp [renderPieces, List.append_assoc]
      rw [hshape]
      rw [findSplit_skip2 (phPat k.data) s.data _ rfl hs.1]
      rw [ih hwf' hk hn']
      simp [renderPieces]
    | ph n =>
      have hn : braceFreeL n.data := hwf (.ph n) (List.mem_cons_self _ _)
      have hnk : n ≠ k := by
        intro h
        exact hnames (by rw [← h]; exact List.mem_cons_self _ _)
      have hn' : k ∉ pieceNames qs' := fun h => hnames (List.mem_cons_of_mem _ h)
      have hshape : renderPieces (PathPiece.ph n :: qs') ++ (phPat k.data ++ suffix) =
          lbrace :: (n.data ++ (rbrace :: (renderPieces qs' ++ (phPat k.data ++ suffix)))) := by
        simp [renderPieces, List.append_assoc]
      rw [hshape]
      have hdne : n.data ≠ k.data := fun h => hnk (by
        rcases n with ⟨nd⟩; rcases k with ⟨kd⟩; exact congrArg String.mk h)
      have hnmatch : (phPat k.data).isPrefixOf
          (lbrace :: (n.data ++ (rbrace :: (renderPieces qs' ++ (phPat k.data ++ suffix))))) =
            false := by
        have hinner := notPrefix_ph n.data k.data
          (renderPieces qs' ++ (phPat k.data ++ suffix)) hdne hn.2 hk.2
        show (lbrace :: (k.data ++ [rbrace])).isPrefixOf _ = false
        simp only [List.isPrefixOf, hinner, Bool.and_false]
      rw [findSplit_head_miss _ _ _ hnmatch]
      rw [findSplit_skip2 (phPat k.data) n.data _ rfl hn.1]
      have hmiss2 : (phPat k.data).isPrefixOf
          (rbrace :: (renderPieces qs' ++ (phPat k.data ++ suffix))) = false := by
        show (lbrace :: (k.data ++ [rbrace])).isPrefixOf _ = false
        simp [List.isPrefixOf, show ¬lbrace = rbrace from by decide]
      rw [findSplit_head_miss _ _ _ hmiss2]
      rw [ih hwf' hk hn']
      simp [renderPieces, List.append_assoc]

lemma jsReplace_ph (qs rs : List PathPiece) (k : String) (v : List Char)
    (hwf : piecesWF qs) (hk : braceFreeL k.data) (hnames : k ∉ pieceNames qs)
    (hv : dollarCh ∉ v) :
    jsReplaceFirst (renderPieces (qs ++ .ph k :: rs)) (phPat k.data) v =
      renderPieces (qs ++ .lit (String.mk v) :: rs) := by
  have hrender : renderPieces (qs ++ .ph k :: rs) =
      renderPieces qs ++ (phPat k.data ++ renderPieces rs) := by
    rw [renderPieces_append]
    simp [renderPieces, phPat, List.append_assoc]
  unfold jsReplaceFirst
  rw [hrender, findSplit_render k (renderPieces rs) qs hwf hk hnames]
  show renderPieces qs ++ getSubstitution (phPat k.data) (renderPieces qs) (renderPieces rs) v ++
    renderPieces rs = _
  rw [getSubstitution_id _ _ _ v hv]
  rw [renderPieces_append]
  simp [renderPieces, List.append_assoc]

lemma exists_ph_decomp (k : String) : ∀ ps : List PathPiece, k ∈ pieceNames ps →
    ∃ qs rs, ps = qs ++ .ph k :: rs ∧ k ∉ pieceNames qs := by
  intro ps
  induction ps with
  | nil => intro h; cases h
  | cons p ps' ih =>
    intro h
    cases p with
    | lit s =>
      rcases ih h with ⟨qs, rs, heq, hn⟩
      exact ⟨.lit s :: qs, rs, by rw [List.cons_append, heq], hn⟩
    | ph n =>
      by_cases hnk : n = k
      · exact ⟨[], ps', by rw [hnk, List.nil_append], fun h2 => absurd h2 (List.not_mem_nil k)⟩
      · have h' : k ∈ pieceNames ps' := by
          rcases List.mem_cons.mp h with he | hm
          · exact absurd he.symm hnk
          · exact hm
        rcases ih h' with ⟨qs, rs, heq, hn⟩
        refine ⟨.ph n :: qs, rs, by rw [List.cons_append, heq], ?_⟩
        intro hm
        rcases List.mem_cons.mp hm with he | hm2
        · exact hnk he.symm
        · exact hn hm2

lemma braceFree_render : ∀ ps : List PathPiece, piecesWF ps → pieceNames ps = [] →
    braceFreeL (renderPieces ps) := by
  intro ps
  induction ps with
  | nil => exact fun _ _ => ⟨List.not_mem_nil _, List.not_mem_nil _⟩
  | cons p ps' ih =>
    intro hwf hn
    cases p with
    | lit s =>
      have hs : braceFreeL s.data := hwf (.lit s) (List.mem_cons_self _ _)
      have hrec := ih (fun q hq => hwf q (List.mem_cons_of_mem _ hq)) hn
      exact ⟨fun hm => (List.mem_append.mp hm).elim hs.1 hrec.1,
        fun hm => (List.mem_append.mp hm).elim hs.2 hrec.2⟩
    | ph n => exact absurd hn (by simp [pieceNames])

lemma resolvePathL_covering :
    ∀ (mapping : List (String × String)) (ps : List PathPiece),
      piecesWF ps → (pieceNames ps).Nodup →
      (mapping.map Prod.fst).Perm (pieceNames ps) →
      (∀ kv ∈ mapping, braceFreeL kv.2.data ∧ dollarFreeL kv.2.data) →
      braceFreeL (resolvePathL (renderPieces ps)
        (mapping.map (fun kv => (kv.1.data, kv.2.data)))) := by
  intro mapping
  induction mapping with
  | nil =>
    intro ps hwf _ hperm _
    exact braceFree_render ps hwf hperm.symm.eq_nil
  | cons kv m' ih =>
    intro ps hwf hnd hperm hv
    rcases kv with ⟨k, v⟩
    have hkmem : k ∈ pieceNames ps := hperm.subset (List.mem_cons_self _ _)
    rcases exists_ph_decomp k ps hkmem with ⟨qs, rs, heq, hnq⟩
    subst heq
    have hwf_q : piecesWF qs := fun p hp => hwf p (List.mem_append.mpr (Or.inl hp))
    have hwf_r : piecesWF rs := fun p hp =>
      hwf p (List.mem_append.mpr (Or.inr (List.mem_cons_of_mem _ hp)))
    have hkwf : braceFreeL k.data :=
      hwf (.ph k) (List.mem_append.mpr (Or.inr (List.mem_cons_self _ _)))
    have hvb := hv (k, v) (List.mem_cons_self _ _)
    have hnames0 : pieceNames (qs ++ PathPiece.ph k :: rs) =
        pieceNames qs ++ k :: pieceNames rs := by
      rw [pieceNames_append]; rfl
    have hnames1 : pieceNames (qs ++ PathPiece.lit (String.mk v.data) :: rs) =
        pieceNames qs ++ pieceNames rs := by
      rw [pieceNames_append]; rfl
    have hstep : resolvePathL (renderPieces (qs ++ PathPiece.ph k :: rs))
        (((k, v) :: m').map (fun kv => (kv.1.data, kv.2.data))) =
        resolvePathL (renderPieces (qs ++ PathPiece.lit (String.mk v.data) :: rs))
          (m'.map (fun kv => (kv.1.data, kv.2.data))) := by
      show resolvePathL (jsReplaceFirst (renderPieces (qs ++ PathPiece.ph k :: rs))
        (phPat k.data) v.data) (m'.map (fun kv => (kv.1.data, kv.2.data))) = _
      rw [jsReplace_ph qs rs k v.data hwf_q hkwf hnq hvb.2]
    rw [hstep]
    apply ih
    · intro p hp
      rcases List.mem_append.mp hp with h1 | h2
      · exact hwf_q p h1
      · rcases List.mem_cons.mp h2 with he | h3
        · rw [he]; exact hvb.1
        · exact hwf_r p h3
    · rw [hnames1]
      rw [hnames0] at hnd
      exact List.Nodup.sublist
        ((List.sublist_cons_self k (pieceNames rs)).append_left (pieceNames qs)) hnd
    · rw [hnames1]
      rw [hnames0] at hperm
      have hmid : List.Perm (pieceNames qs ++ k :: pieceNames rs)
          (k :: (pieceNames qs ++ pieceNames rs)) := List.perm_middle
      exact (hperm.trans hmid).cons_inv
    · intro kv hm
      exact hv kv (List.mem_cons_of_mem _ hm)

/-- C6 as stated is false: the resolver is JavaScript `String.replace`, so a
replacement value is not always copied verbatim and can leave or introduce
braces.  Two concrete refutations: a mapping that covers exactly the
placeholders of its template (`\x7bartwork\x7d` with key `artwork`) but whose
value is the single character `\x7b` leaves a brace in the resolved path; and
the brace-free value `$&` (a JavaScript replacement pattern meaning "the
matched substring") re-inserts the placeholder `\x7bbug\x7d` itself, so the
resolved path keeps its braces and does not contain the value verbatim. -/
theorem resolvePath_contract_counterexample :
    pieceNames [PathPiece.lit "/nh/art/", PathPiece.ph "artwork"] = ["artwork"] ∧
    piecesWF [PathPiece.lit "/nh/art/", PathPiece.ph "artwork"] ∧
    String.mk (renderPieces [PathPiece.lit "/nh/art/", PathPiece.ph "artwork"]) =
      "/nh/art/\x7bartwork\x7d" ∧
    ([("artwork", "\x7b")] : List (String × String)).map Prod.fst = ["artwork"] ∧
    resolvePath "/nh/art/\x7bartwork\x7d" [("artwork", "\x7b")] = "/nh/art/\x7b" ∧
    ¬braceFreeL (resolvePath "/nh/art/\x7bartwork\x7d" [("artwork", "\x7b")]).data ∧
    resolvePath "/nh/bugs/\x7bbug\x7d" [("bug", "$&")] = "/nh/bugs/\x7bbug\x7d" ∧
    braceFreeL ("$&" : String).data ∧
    ¬braceFreeL (resolvePath "/nh/bugs/\x7bbug\x7d" [("bug", "$&")]).data := by
  refine ⟨rfl, by decide, rfl, rfl, rfl, by decide, rfl, by decide, by decide⟩

/-- C6 (amended): each `replacePath` entry replaces the first occurrence of
its `\x7bname\x7d` pattern under JavaScript replacement-string semantics (the
value's `$`-sequences are interpreted, everything else copied verbatim).  If
the mapping covers exactly the placeholders present in the template (each
placeholder occurring once, names and literal chunks brace-free, as in every
template of this library) and every replacement value is free of braces and
dollar signs, the resolved path contains no `\x7b` or `\x7d`; in particular a
template with single placeholder `\x7bx\x7d` and a brace- and dollar-free
value `v` resolves to literally `prefix ++ v ++ suffix`, containing `v`
verbatim and no braces. -/
theorem resolvePath_contract :
    (∀ (ps : List PathPiece) (mapping : List (String × String)),
      piecesWF ps → (pieceNames ps).Nodup →
      (mapping.map Prod.fst).Perm (pieceNames ps) →
      (∀ kv ∈ mapping, braceFreeL kv.2.data ∧ dollarFreeL kv.2.data) →
      braceFreeL (resolvePath (String.mk (renderPieces ps)) mapping).data) ∧
    (∀ a x b v : String, braceFreeL a.data → braceFreeL x.data → braceFreeL b.data →
      braceFreeL v.data → dollarFreeL v.data →
      resolvePath (a ++ String.mk [lbrace] ++ x ++ String.mk [rbrace] ++ b) [(x, v)] =
        a ++ v ++ b) := by
  constructor
  · intro ps mapping hwf hnd hperm hv
    exact resolvePathL_covering mapping ps hwf hnd hperm hv
  · intro a x b v ha hx hb hv hvd
    have hdata : (a ++ String.mk [lbrace] ++ x ++ String.mk [rbrace] ++ b).data =
        renderPieces [PathPiece.lit a, PathPiece.ph x, PathPiece.lit b] := by
      simp [String.data_append, renderPieces, List.append_assoc]
    show String.mk (resolvePathL _ _) = _
    rw [hdata]
    have hwfa : piecesWF [PathPiece.lit a] := by
      intro p hp
      rcases List.mem_cons.mp hp with he | hm
      · rw [he]; exact ha
      · cases hm
    have hstep : resolvePathL (renderPieces [PathPiece.lit a, PathPiece.ph x, PathPiece.lit b])
        ([(x, v)].map (fun kv => (kv.1.data, kv.2.data))) =
        renderPieces [PathPiece.lit a, PathPiece.lit (String.mk v.data), PathPiece.lit b] := by
      show jsReplaceFirst _ (phPat x.data) v.data = _
      exact jsReplace_ph [PathPiece.lit a] [PathPiece.lit b] x v.data hwfa hx
        (List.not_mem_nil x) hvd
    rw [hstep]
    exact congrArg String.mk (by simp [String.data_append, renderPieces])

/-- Closed instance of C6 (amended): the bug template resolves `coolBug`
verbatim with no braces left, and a fully covered two-literal template with a
plain value resolves brace-free. -/
theorem resolvePath_contract_witness :
    resolvePath ("/nh/bugs/" ++ String.mk [lbrace] ++ "bug" ++ String.mk [rbrace] ++ "")
      [("bug", "coolBug")] = "/nh/bugs/" ++ "coolBug" ++ "" ∧
    braceFreeL (resolvePath
      (String.mk (renderPieces [PathPiece.lit "/nh/art/", PathPiece.ph "artwork"]))
      [("artwork", "theMona")]).data :=
  ⟨resolvePath_contract.2 "/nh/bugs/" "bug" "" "coolBug"
      (by decide) (by decide) (by decide) (by decide) (by decide),
   resolvePath_contract.1 [PathPiece.lit "/nh/art/", PathPiece.ph "artwork"]
      [("artwork", "theMona")] (by decide) (by decide) (by decide) (by decide)⟩

/-- Closed instance of C7: clients built with `https://api.x.com` and
`https://api.x.com/` issue identical outbound requests for the same call. -/
theorem base_url_trailing_slash_irrelevant_witness :
    parseBase ("https://api.x.com" : String).data =
      some ⟨("https" : String).data, ("api.x.com" : String).data⟩ ∧
    buildRequest ⟨"k", "https://api.x.com"⟩ { path := "/nh/bugs" } =
      buildRequest ⟨"k", "https://api.x.com" ++ "/"⟩ { path := "/nh/bugs" } :=
  ⟨rfl, base_url_trailing_slash_irrelevant ⟨"k", "https://api.x.com"⟩ { path := "/nh/bugs" }
    ⟨("https" : String).data, ("api.x.com" : String).data⟩ rfl⟩

end Nookipedia
